import Mathlib

/-!
Verification of the heap / garbage-collection substrate of the nova_vm
runtime, shallowly embedded from the Rust sources.

Arenas are embedded as `List (Option α)`: a growable, densely packed
sequence of optional slots, one arena per heap entity kind.  Typed indices
are embedded as `Nat` (the source stores them as `u32` newtypes such as
`MapIndex`, `WeakMapIndex` and `ScriptIdentifier`; `into_index` widens to
`usize`).  The fatal `expect` calls of the `Index`/`IndexMut`
implementations are embedded as an `Except` error result.
-/

namespace NovaHeap

/-- Failure modes of the arena indexing operations.  The source panics via
`expect("... out of bounds")` when the index is past the end of the vector
and via `expect("... slot empty")` when the slot holds `None`. -/
inductive ArenaError where
  | outOfBounds
  | slotEmpty
  deriving Repr, DecidableEq

/-- Embedding of the `Index`/`IndexMut` implementations for
`Vec<Option<MapHeapData>>` (map.rs lines 127-145), for
`Vec<Option<WeakMapHeapData>>` (weak_map.rs lines 107-125) and for
`Vec<Option<Script>>` (script.rs lines 88-106); the three are textually
identical up to the stored type, so the embedding is polymorphic.
The source does `self.get(index.get_index()).expect(..).as_ref().expect(..)`:
an out-of-range lookup and a vacant slot both abort, an occupied slot
returns the stored entity. -/
def arenaIndex {α : Type} (arena : List (Option α)) (i : Nat) : Except ArenaError α :=
  match arena[i]? with
  | none => .error .outOfBounds
  | some none => .error .slotEmpty
  | some (some v) => .ok v

/-- Embedding of `ScriptIdentifier::last` (script.rs lines 60-63): the index
of the last slot of the arena, `len - 1`.  `MapIndex::last` and
`WeakMapIndex::last` have the same semantics on their arenas. -/
def indexLast {α : Type} (arena : List (Option α)) : Nat :=
  arena.length - 1

/-- The heap aggregate restricted to the arenas the embedded sources touch:
`heap.maps`, `heap.weak_maps` and `heap.scripts`.  The stored data types are
parameters because their definitions (`MapHeapData`, `WeakMapHeapData`,
`Script` internals) play no role in the indexing and allocation code. -/
structure Heap (μ ω σ : Type) where
  maps : List (Option μ)
  weak_maps : List (Option ω)
  scripts : List (Option σ)
  deriving Repr, DecidableEq

/-- Embedding of `CreateHeapData<MapHeapData, Map> for Heap` (map.rs lines
147-152): push `Some(data)` onto the maps arena and return the index of the
new last slot. -/
def Heap.createMap {μ ω σ : Type} (h : Heap μ ω σ) (data : μ) : Heap μ ω σ × Nat :=
  let maps := h.maps ++ [some data]
  ({ h with maps := maps }, indexLast maps)

/-- Embedding of `CreateHeapData<WeakMapHeapData, WeakMap> for Heap`
(weak_map.rs lines 127-133). -/
def Heap.createWeakMap {μ ω σ : Type} (h : Heap μ ω σ) (data : ω) : Heap μ ω σ × Nat :=
  let weak_maps := h.weak_maps ++ [some data]
  ({ h with weak_maps := weak_maps }, indexLast weak_maps)

end NovaHeap

namespace NovaHeap

/-- Helper: `arenaIndex` on an appended arena agrees with the old arena
below the old length. -/
theorem arenaIndex_append_lt {α : Type} (arena : List (Option α)) (x : Option α)
    (i : Nat) (h : i < arena.length) :
    arenaIndex (arena ++ [x]) i = arenaIndex arena i := by
  unfold arenaIndex
  rw [List.getElem?_append_left h]

/-- Helper: `arenaIndex` succeeds with `v` exactly when slot `i` is in range
and holds `some v`. -/
theorem arenaIndex_eq_ok {α : Type} {arena : List (Option α)} {i : Nat} {v : α} :
    arenaIndex arena i = .ok v ↔ arena[i]? = some (some v) := by
  unfold arenaIndex
  rcases hg : arena[i]? with _ | (_ | u) <;> simp

/-- Helper: a successful `arenaIndex` implies the index is in range. -/
theorem arenaIndex_lt_length {α : Type} {arena : List (Option α)} {i : Nat} {v : α}
    (h : arenaIndex arena i = .ok v) : i < arena.length := by
  have hg := arenaIndex_eq_ok.mp h
  by_contra hge
  rw [List.getElem?_eq_none (Nat.le_of_not_lt hge)] at hg
  exact Option.noConfusion hg

/-- Helper: `arenaIndex` at the appended last slot returns the new value. -/
theorem arenaIndex_append_last {α : Type} (arena : List (Option α)) (v : α) :
    arenaIndex (arena ++ [some v]) arena.length = .ok v := by
  unfold arenaIndex
  rw [List.getElem?_concat_length]

end NovaHeap

namespace NovaHeap

/-- C1: indexing an arena with get/get_mut returns the stored entity exactly
when the index is in range and the slot is occupied, and fails fatally
(returns an error, never a default or null value) exactly when the index is
out of range or the slot is vacant. -/
theorem arenaIndex_spec {α : Type} (arena : List (Option α)) (i : Nat) :
    (∀ v : α, arenaIndex arena i = .ok v ↔ arena[i]? = some (some v)) ∧
    ((arenaIndex arena i).isOk = false ↔
      arena.length ≤ i ∨ arena[i]? = some none) := by
  constructor
  · intro v
    unfold arenaIndex
    rcases hg : arena[i]? with _ | (_ | u) <;> simp
  · unfold arenaIndex
    rcases hg : arena[i]? with _ | (_ | u)
    · exact ⟨fun _ => Or.inl (List.getElem?_eq_none_iff.mp hg), fun _ => rfl⟩
    · exact ⟨fun _ => Or.inr rfl, fun _ => rfl⟩
    · have hlt : i < arena.length := by
        by_contra hge
        rw [List.getElem?_eq_none (Nat.le_of_not_lt hge)] at hg
        exact Option.noConfusion hg
      constructor
      · intro h
        exact Bool.noConfusion h
      · intro h
        rcases h with h | h
        · omega
        · exact Option.noConfusion (Option.some.inj h)

/-- C2: the allocation entry point appends `Some(value)` as the new last
slot of the corresponding arena and returns a typed index naming that last
slot; indexing the heap with the returned index immediately afterwards
yields the stored value.  Stated for the `MapHeapData` and the
`WeakMapHeapData` instances of `CreateHeapData`. -/
theorem heapCreate_spec {μ ω σ : Type} (h : Heap μ ω σ) (m : μ) (w : ω) :
    ((h.createMap m).1.maps = h.maps ++ [some m]
      ∧ (h.createMap m).2 = indexLast (h.createMap m).1.maps
      ∧ (h.createMap m).2 = h.maps.length
      ∧ arenaIndex (h.createMap m).1.maps (h.createMap m).2 = .ok m)
    ∧ ((h.createWeakMap w).1.weak_maps = h.weak_maps ++ [some w]
      ∧ (h.createWeakMap w).2 = indexLast (h.createWeakMap w).1.weak_maps
      ∧ (h.createWeakMap w).2 = h.weak_maps.length
      ∧ arenaIndex (h.createWeakMap w).1.weak_maps (h.createWeakMap w).2 = .ok w) := by
  refine ⟨⟨rfl, rfl, ?_, ?_⟩, ⟨rfl, rfl, ?_, ?_⟩⟩
  · show indexLast (h.maps ++ [some m]) = h.maps.length
    unfold indexLast
    rw [List.length_append]
    simp
  · show arenaIndex (h.maps ++ [some m]) (indexLast (h.maps ++ [some m])) = .ok m
    have : indexLast (h.maps ++ [some m]) = h.maps.length := by
      unfold indexLast
      rw [List.length_append]
      simp
    rw [this]
    exact arenaIndex_append_last h.maps m
  · show indexLast (h.weak_maps ++ [some w]) = h.weak_maps.length
    unfold indexLast
    rw [List.length_append]
    simp
  · show arenaIndex (h.weak_maps ++ [some w]) (indexLast (h.weak_maps ++ [some w])) = .ok w
    have : indexLast (h.weak_maps ++ [some w]) = h.weak_maps.length := by
      unfold indexLast
      rw [List.length_append]
      simp
    rw [this]
    exact arenaIndex_append_last h.weak_maps w

/-- C8: an allocation leaves every previously issued valid index of the same
arena valid with its stored value unchanged, leaves the other arenas
untouched, and the newly returned index is distinct from every previously
issued index of that type.  Stated for both map and weak-map allocation. -/
theorem create_preserves_issued {μ ω σ : Type} (h : Heap μ ω σ) (m : μ) (w : ω)
    (i j : Nat) (v : μ) (u : ω)
    (hi : arenaIndex h.maps i = .ok v) (hj : arenaIndex h.weak_maps j = .ok u) :
    (arenaIndex (h.createMap m).1.maps i = .ok v
      ∧ (h.createMap m).2 ≠ i
      ∧ (h.createMap m).1.weak_maps = h.weak_maps
      ∧ (h.createMap m).1.scripts = h.scripts)
    ∧ (arenaIndex (h.createWeakMap w).1.weak_maps j = .ok u
      ∧ (h.createWeakMap w).2 ≠ j
      ∧ (h.createWeakMap w).1.maps = h.maps
      ∧ (h.createWeakMap w).1.scripts = h.scripts) := by
  have hilt := arenaIndex_lt_length hi
  have hjlt := arenaIndex_lt_length hj
  refine ⟨⟨?_, ?_, rfl, rfl⟩, ⟨?_, ?_, rfl, rfl⟩⟩
  · show arenaIndex (h.maps ++ [some m]) i = .ok v
    rw [arenaIndex_append_lt h.maps (some m) i hilt]
    exact hi
  · show indexLast (h.maps ++ [some m]) ≠ i
    unfold indexLast
    rw [List.length_append]
    simp only [List.length_cons, List.length_nil]
    omega
  · show arenaIndex (h.weak_maps ++ [some w]) j = .ok u
    rw [arenaIndex_append_lt h.weak_maps (some w) j hjlt]
    exact hj
  · show indexLast (h.weak_maps ++ [some w]) ≠ j
    unfold indexLast
    rw [List.length_append]
    simp only [List.length_cons, List.length_nil]
    omega

/-- C8 witness: a concrete heap with one occupied map slot and one occupied
weak-map slot, allocating a fresh entity of each kind. -/
theorem create_preserves_issued_witness :
    arenaIndex (Heap.mk [some 5] [some 7] ([] : List (Option Nat))).maps 0 = .ok 5
    ∧ arenaIndex
        ((Heap.mk [some 5] [some 7] ([] : List (Option Nat))).createMap 9).1.maps 0 = .ok 5
    ∧ ((Heap.mk [some 5] [some 7] ([] : List (Option Nat))).createMap 9).2 ≠ 0 := by
  refine ⟨by rfl, ?_, ?_⟩
  · exact ((create_preserves_issued (Heap.mk [some 5] [some 7] ([] : List (Option Nat)))
      9 11 0 0 5 7 (by rfl) (by rfl)).1).1
  · exact ((create_preserves_issued (Heap.mk [some 5] [some 7] ([] : List (Option Nat)))
      9 11 0 0 5 7 (by rfl) (by rfl)).1).2.1

/-- Modelled from the spec: `CompactionLists` and its per-type
`CompactionList` are not under src/ (only their callers are).  The spec
says the table is built while scanning the arena once: every slot not
marked reached is set to vacant, and for every retained slot the table
records the number of removed slots preceding it (a monotonically
non-decreasing shift).  The table is therefore embedded as the slot-by-slot
mark bits of that scan. -/
structure CompactionList where
  marks : List Bool
  deriving Repr, DecidableEq

/-- Modelled from the spec: the shift recorded for an index is the count of
dead (unmarked) slots preceding it in the scan. -/
def CompactionList.get_shift_for_index (c : CompactionList) (i : Nat) : Nat :=
  ((c.marks.take i).filter (fun b => !b)).length

/-- Modelled from the spec: `CompactionList::shift_index` rewrites a stored
index to `old_index - shift_for(old_index)`. -/
def CompactionList.shift_index (c : CompactionList) (i : Nat) : Nat :=
  i - c.get_shift_for_index i

/-- Embedding of the `ScriptIdentifier` handle (script.rs line 43): a plain
`u32` index. -/
structure ScriptIdentifier where
  id : Nat
  deriving Repr, DecidableEq

/-- Embedding of `HeapMarkAndSweep for ScriptIdentifier::sweep_values`
(script.rs lines 113-117): the handle is replaced by
`from_u32(self_index - compactions.scripts.get_shift_for_index(self_index))`. -/
def ScriptIdentifier.sweep_values (s : ScriptIdentifier) (c : CompactionList) :
    ScriptIdentifier :=
  ⟨s.id - c.get_shift_for_index s.id⟩

/-- Embedding of the `Map` handle (map.rs line 26): a newtype over
`MapIndex`. -/
structure Map where
  index : Nat
  deriving Repr, DecidableEq

/-- Embedding of `HeapMarkAndSweep for Map::sweep_values` (map.rs lines
108-110): `compactions.maps.shift_index(&mut self.0)`. -/
def Map.sweep_values (m : Map) (c : CompactionList) : Map :=
  ⟨c.shift_index m.index⟩

/-- Helper: the recorded shift is monotonically non-decreasing in the
index. -/
theorem get_shift_for_index_mono (c : CompactionList) {i j : Nat} (h : i ≤ j) :
    c.get_shift_for_index i ≤ c.get_shift_for_index j := by
  unfold CompactionList.get_shift_for_index
  exact ((List.take_prefix_take_left c.marks h).sublist.filter _).length_le

/-- C3: the sweep/relocate operation rewrites a handle to exactly
`old_index - shift_for(old_index)` where the shift is the number of removed
slots preceding the index (monotonically non-decreasing), and changes
nothing else about the handle; stated for the `ScriptIdentifier` and `Map`
sweep implementations. -/
theorem sweep_values_spec (c : CompactionList) (s : ScriptIdentifier) (m : Map)
    {i j : Nat} (hij : i ≤ j) :
    s.sweep_values c = ScriptIdentifier.mk (s.id - c.get_shift_for_index s.id)
    ∧ m.sweep_values c = Map.mk (m.index - c.get_shift_for_index m.index)
    ∧ c.get_shift_for_index i ≤ c.get_shift_for_index j := by
  exact ⟨rfl, rfl, get_shift_for_index_mono c hij⟩

/-- C3 witness: a concrete compaction table (slots 0 and 2 dead, slots 1 and
3 retained) applied to concrete handles. -/
theorem sweep_values_spec_witness :
    (ScriptIdentifier.mk 3).sweep_values (CompactionList.mk [false, true, false, true])
      = ScriptIdentifier.mk 1
    ∧ (Map.mk 1).sweep_values (CompactionList.mk [false, true, false, true])
      = Map.mk 0
    ∧ (CompactionList.mk [false, true, false, true]).get_shift_for_index 1
      ≤ (CompactionList.mk [false, true, false, true]).get_shift_for_index 3 := by
  have h := sweep_values_spec (CompactionList.mk [false, true, false, true])
    (ScriptIdentifier.mk 3) (Map.mk 1) (i := 1) (j := 3) (by decide)
  refine ⟨?_, ?_, h.2.2⟩
  · rw [h.1]
    decide
  · rw [h.2.1]
    decide

/-- Modelled from the spec: `WorkQueues` is not under src/ (only its users
are).  The spec describes it as per-type worklists of indices discovered
reachable during the mark phase; pushing appends an index to the worklist
matching its type.  The fields cover the entity types the embedded mark
implementations touch. -/
structure WorkQueues where
  maps : List Nat
  weak_maps : List Nat
  scripts : List Nat
  modules : List Nat
  realms : List Nat
  objects : List Nat
  strings : List Nat
  module_environments : List Nat
  deriving Repr, DecidableEq

/-- Embedding of the `WeakMap` handle (weak_map.rs line 27): a newtype over
`WeakMapIndex`. -/
structure WeakMap where
  index : Nat
  deriving Repr, DecidableEq

/-- Embedding of `HeapMarkAndSweep for WeakMap::mark_values` (weak_map.rs
lines 136-138): `queues.weak_maps.push(*self)` and nothing else. -/
def WeakMap.mark_values (w : WeakMap) (q : WorkQueues) : WorkQueues :=
  { q with weak_maps := q.weak_maps ++ [w.index] }

/-- Modelled from the spec: marking a `String` value pushes onto the strings
worklist when the value lives in the string arena and is a no-op for inline
small strings; the `String` type itself is not under src/.  A heap string is
embedded as `some index`, a small string as `none`. -/
def markString (s : Option Nat) (q : WorkQueues) : WorkQueues :=
  match s with
  | some i => { q with strings := q.strings ++ [i] }
  | none => q

/-- Modelled from the spec: marking a `Realm` handle pushes its index onto
the realms worklist. -/
def markRealm (r : Nat) (q : WorkQueues) : WorkQueues :=
  { q with realms := q.realms ++ [r] }

/-- Modelled from the spec: marking an `Option<Module>` pushes the module
index onto the modules worklist when present. -/
def markModuleOpt (m : Option Nat) (q : WorkQueues) : WorkQueues :=
  match m with
  | some i => { q with modules := q.modules ++ [i] }
  | none => q

/-- Modelled from the spec: marking an `Option<OrdinaryObject>` pushes the
object index onto the objects worklist when present. -/
def markObjectOpt (o : Option Nat) (q : WorkQueues) : WorkQueues :=
  match o with
  | some i => { q with objects := q.objects ++ [i] }
  | none => q

/-- Embedding of `ModuleRecord` (module/data.rs lines 26-46).  The
`namespace` field is renamed `name_space` because `namespace` is a Lean
keyword; `host_defined` is the unit type in the source and is omitted. -/
structure ModuleRecord where
  realm : Nat
  environment : Option Nat
  name_space : Option Nat
  deriving Repr, DecidableEq

/-- Embedding of `ModuleHeapData` (module/data.rs lines 19-23). -/
structure ModuleHeapData where
  object_index : Option Nat
  module : ModuleRecord
  exports : List (Option Nat)
  deriving Repr, DecidableEq

/-- Embedding of `HeapMarkAndSweep for ModuleHeapData::mark_values`
(module/data.rs lines 103-122): each export is marked, then the realm, then
the namespace, then the backing object.  The `environment` field is
destructured away and its marking line is commented out in the source, so
nothing is pushed for it here. -/
def ModuleHeapData.mark_values (d : ModuleHeapData) (q : WorkQueues) : WorkQueues :=
  let q := d.exports.foldl (fun q s => markString s q) q
  let q := markRealm d.module.realm q
  let q := markModuleOpt d.module.name_space q
  markObjectOpt d.object_index q

/-- C7: marking a weak map pushes only the weak map itself onto the
weak-maps work queue; every other work queue is left unchanged by this
step, so none of the key-to-value entries of the weak map is enumerated as
a strong edge. -/
theorem weakMap_mark_values_spec (w : WeakMap) (q : WorkQueues) :
    (w.mark_values q).weak_maps = q.weak_maps ++ [w.index]
    ∧ (w.mark_values q).maps = q.maps
    ∧ (w.mark_values q).scripts = q.scripts
    ∧ (w.mark_values q).modules = q.modules
    ∧ (w.mark_values q).realms = q.realms
    ∧ (w.mark_values q).objects = q.objects
    ∧ (w.mark_values q).strings = q.strings
    ∧ (w.mark_values q).module_environments = q.module_environments := by
  exact ⟨rfl, rfl, rfl, rfl, rfl, rfl, rfl, rfl⟩

/-- C4 evaluation at the failing input: a module whose environment record is
set (`environment = some 3`) marks its export, realm, namespace and backing
object, but pushes nothing for the environment: the module-environments
work queue stays empty.  This exhibits the commented-out
`environment.mark_values(queues)` line of the source. -/
theorem moduleMark_skips_environment :
    (ModuleHeapData.mk (some 4) (ModuleRecord.mk 0 (some 3) (some 2))
        [some 1]).module.environment = some 3
    ∧ ((ModuleHeapData.mk (some 4) (ModuleRecord.mk 0 (some 3) (some 2))
        [some 1]).mark_values (WorkQueues.mk [] [] [] [] [] [] [] []))
      = WorkQueues.mk [] [] [] [2] [0] [4] [1] [] := by
  exact ⟨rfl, rfl⟩

/-- Modelled from the spec: capacity classes form discrete tiers; class 0 is
the empty tier with capacity 0 and class `k+1` holds `2 ^ (k+1)` elements,
so growing a class doubles (at least) the capacity. -/
def classCap : Nat → Nat
  | 0 => 0
  | k + 1 => 2 ^ (k + 1)

/-- Helper: fuelled ceiling base-2 logarithm, structurally recursive so that
concrete witnesses reduce in the kernel.  With fuel at least `n` it computes
the least `k` with `n ≤ 2 ^ k`. -/
def clog2F : Nat → Nat → Nat
  | 0, _ => 0
  | fuel + 1, n => if n ≤ 1 then 0 else clog2F fuel ((n + 1) / 2) + 1

/-- Modelled from the spec: the smallest capacity class that fits `n`
elements; `0` (the empty tier) for `n = 0`. -/
def classFor (n : Nat) : Nat :=
  if n = 0 then 0 else max 1 (clog2F n n)

/-- Helper: with sufficient fuel the fuelled ceiling logarithm bounds its
argument. -/
theorem le_two_pow_clog2F : ∀ fuel n, n ≤ fuel → n ≤ 2 ^ clog2F fuel n := by
  intro fuel
  induction fuel with
  | zero =>
    intro n hn
    interval_cases n
    decide
  | succ fuel ih =>
    intro n hn
    unfold clog2F
    by_cases h1 : n ≤ 1
    · rw [if_pos h1]
      exact h1.trans (by norm_num)
    · simp only [h1, if_false]
      have hm : (n + 1) / 2 ≤ fuel := by omega
      have := ih ((n + 1) / 2) hm
      calc n ≤ 2 * ((n + 1) / 2) := by omega
        _ ≤ 2 * 2 ^ clog2F fuel ((n + 1) / 2) := Nat.mul_le_mul_left 2 this
        _ = 2 ^ (clog2F fuel ((n + 1) / 2) + 1) := (Nat.pow_succ 2 _).symm ▸ by ring

/-- Helper: a positive class has capacity `2 ^ class`. -/
theorem classCap_of_pos {k : Nat} (h : 1 ≤ k) : classCap k = 2 ^ k := by
  cases k with
  | zero => omega
  | succ m => rfl

/-- Helper: the chosen class for `n` really fits `n` elements. -/
theorem le_classCap_classFor (n : Nat) : n ≤ classCap (classFor n) := by
  unfold classFor
  by_cases h0 : n = 0
  · simp [h0, classCap]
  · simp only [h0, if_false]
    rw [classCap_of_pos (Nat.le_max_left 1 _)]
    calc n ≤ 2 ^ clog2F n n := le_two_pow_clog2F n n (Nat.le_refl n)
      _ ≤ 2 ^ max 1 (clog2F n n) :=
        Nat.pow_le_pow_right (by omega) (Nat.le_max_right 1 _)

/-- Modelled from the spec: an element descriptor; the only feature the
classification queries inspect is whether it is an accessor
(getter/setter) descriptor. -/
structure ElementDescriptor where
  is_accessor : Bool
  deriving Repr, DecidableEq

/-- Modelled from the spec: the element-storage arena.  Each storage is a
sequence of slots holding an optional plain value (a `None` value is a
hole) and an optional descriptor; element values are embedded as `Nat`. -/
structure ElementArrays where
  arrays : List (List (Option Nat × Option ElementDescriptor))
  deriving Repr, DecidableEq

/-- Helper: the storage behind a given elements index. -/
def ElementArrays.storage (e : ElementArrays) (i : Nat) :
    List (Option Nat × Option ElementDescriptor) :=
  e.arrays.getD i []

/-- Embedding of the `ElementsVector` descriptor: a typed index into the
element storage, a capacity class and a length (the struct itself is not
under src/; its fields are visible through the `From` conversion in
array/data.rs lines 104-113). -/
structure ElementsVector where
  elements_index : Nat
  cap : Nat
  len : Nat
  deriving Repr, DecidableEq

/-- Modelled from the spec: `ElementsVector::reserve(new_len)` is a no-op
when `new_len` already fits the current capacity class; otherwise it
allocates storage at the smallest capacity class that fits, copies the
existing elements, and updates the stored index and class. -/
def ElementsVector.reserve (v : ElementsVector) (e : ElementArrays) (new_len : Nat) :
    ElementsVector × ElementArrays :=
  if new_len ≤ classCap v.cap then (v, e)
  else
    let newCap := classFor new_len
    let old := (e.storage v.elements_index).take v.len
    let fresh := old ++ List.replicate (classCap newCap - v.len) (none, none)
    (ElementsVector.mk e.arrays.length newCap v.len, ElementArrays.mk (e.arrays ++ [fresh]))

/-- Modelled from the spec: `ElementsVector::push(value, descriptor)`: if
full, grow first, then write at `length` and increment `length`. -/
def ElementsVector.push (v : ElementsVector) (e : ElementArrays)
    (value : Option Nat) (descriptor : Option ElementDescriptor) :
    ElementsVector × ElementArrays :=
  let g := if v.len = classCap v.cap then v.reserve e (v.len + 1) else (v, e)
  let storage := (g.2.storage g.1.elements_index).set g.1.len (value, descriptor)
  (ElementsVector.mk g.1.elements_index g.1.cap (g.1.len + 1),
    ElementArrays.mk (g.2.arrays.set g.1.elements_index storage))

/-- Modelled from the spec: a vector is simple if positions `0..length`
hold no accessor descriptors. -/
def ElementsVector.is_simple (v : ElementsVector) (e : ElementArrays) : Bool :=
  ((e.storage v.elements_index).take v.len).all fun s =>
    match s.2 with
    | some d => !d.is_accessor
    | none => true

/-- Modelled from the spec: a vector is trivial if positions `0..length`
hold no descriptors at all. -/
def ElementsVector.is_trivial (v : ElementsVector) (e : ElementArrays) : Bool :=
  ((e.storage v.elements_index).take v.len).all fun s => s.2.isNone

/-- Modelled from the spec: a vector is dense if every position
`0..length` holds a plain value with no descriptor metadata. -/
def ElementsVector.is_dense (v : ElementsVector) (e : ElementArrays) : Bool :=
  ((e.storage v.elements_index).take v.len).all fun s => s.1.isSome && s.2.isNone

/-- Embedding of `SealableElementsVector` (array/data.rs lines 16-22). -/
structure SealableElementsVector where
  elements_index : Nat
  cap : Nat
  len : Nat
  len_writable : Bool
  deriving Repr, DecidableEq

/-- Embedding of `From<SealableElementsVector> for ElementsVector`
(array/data.rs lines 104-113): the conversion copies the index, class and
length and drops the `len_writable` flag. -/
def SealableElementsVector.toElementsVector (s : SealableElementsVector) : ElementsVector :=
  ElementsVector.mk s.elements_index s.cap s.len

/-- Embedding of `SealableElementsVector::writable` (array/data.rs lines
42-44). -/
def SealableElementsVector.writable (s : SealableElementsVector) : Bool :=
  s.len_writable

/-- Embedding of `SealableElementsVector::is_simple` (array/data.rs lines
47-50): convert and delegate. -/
def SealableElementsVector.is_simple (s : SealableElementsVector) (e : ElementArrays) : Bool :=
  s.toElementsVector.is_simple e

/-- Embedding of `SealableElementsVector::is_trivial` (array/data.rs lines
53-56). -/
def SealableElementsVector.is_trivial (s : SealableElementsVector) (e : ElementArrays) : Bool :=
  s.toElementsVector.is_trivial e

/-- Embedding of `SealableElementsVector::is_dense` (array/data.rs lines
58-61). -/
def SealableElementsVector.is_dense (s : SealableElementsVector) (e : ElementArrays) : Bool :=
  s.toElementsVector.is_dense e

/-- Embedding of `SealableElementsVector::reserve` (array/data.rs lines
72-77): convert, delegate, copy back `cap` and `elements_index`.  Note the
source consults neither `len` nor `len_writable`. -/
def SealableElementsVector.reserve (s : SealableElementsVector) (e : ElementArrays)
    (new_len : Nat) : SealableElementsVector × ElementArrays :=
  let r := s.toElementsVector.reserve e new_len
  ({ s with cap := r.1.cap, elements_index := r.1.elements_index }, r.2)

/-- Embedding of `SealableElementsVector::push` (array/data.rs lines
79-90): convert, delegate, copy back `cap`, `len` and `elements_index`.
Note the source does not consult `len_writable`. -/
def SealableElementsVector.push (s : SealableElementsVector) (e : ElementArrays)
    (value : Option Nat) (descriptor : Option ElementDescriptor) :
    SealableElementsVector × ElementArrays :=
  let r := s.toElementsVector.push e value descriptor
  ({ s with cap := r.1.cap, len := r.1.len, elements_index := r.1.elements_index }, r.2)

/-- Embedding of `SealableElementsVector::pushMany`: folding `push` over a
sequence of (value, descriptor) pairs; used to state repeated pushes. -/
def SealableElementsVector.pushMany (s : SealableElementsVector) (e : ElementArrays)
    (items : List (Option Nat × Option ElementDescriptor)) :
    SealableElementsVector × ElementArrays :=
  items.foldl (fun p it => p.1.push p.2 it.1 it.2) (s, e)

/-- Helper: a push on a non-full vector only increments the length; index,
class and flag are untouched. -/
theorem push_not_full (s : SealableElementsVector) (e : ElementArrays)
    (value : Option Nat) (d : Option ElementDescriptor) (h : s.len ≠ classCap s.cap) :
    (s.push e value d).1 = { s with len := s.len + 1 } := by
  unfold SealableElementsVector.push ElementsVector.push SealableElementsVector.toElementsVector
  simp [h]

/-- Helper: repeated pushes that stay within the current capacity class
never change the storage index or the class, and add exactly the pushed
count to the length. -/
theorem pushMany_no_realloc :
    ∀ (items : List (Option Nat × Option ElementDescriptor))
      (s : SealableElementsVector) (e : ElementArrays),
      s.len + items.length ≤ classCap s.cap →
      (s.pushMany e items).1.elements_index = s.elements_index
      ∧ (s.pushMany e items).1.cap = s.cap
      ∧ (s.pushMany e items).1.len = s.len + items.length := by
  intro items
  induction items with
  | nil =>
    intro s e h
    exact ⟨rfl, rfl, rfl⟩
  | cons it rest ih =>
    intro s e h
    simp only [List.length_cons] at h
    have hne : s.len ≠ classCap s.cap := by omega
    have hstep := push_not_full s e it.1 it.2 hne
    have heq : s.pushMany e (it :: rest)
        = SealableElementsVector.pushMany (s.push e it.1 it.2).1 (s.push e it.1 it.2).2 rest :=
      rfl
    rw [heq, hstep]
    obtain ⟨h1, h2, h3⟩ := ih { s with len := s.len + 1 } (s.push e it.1 it.2).2
      (by simpa using by omega)
    refine ⟨by simpa using h1, by simpa using h2, ?_⟩
    rw [h3]
    simp only [List.length_cons]
    omega

/-- Helper: `reserve` never changes the length. -/
theorem reserve_len (s : SealableElementsVector) (e : ElementArrays) (n : Nat) :
    (s.reserve e n).1.len = s.len := by
  unfold SealableElementsVector.reserve ElementsVector.reserve SealableElementsVector.toElementsVector
  by_cases h : n ≤ classCap s.cap <;> simp [h]

/-- Helper: after `reserve n` the capacity class fits `n`. -/
theorem reserve_cap_fits (s : SealableElementsVector) (e : ElementArrays) (n : Nat) :
    n ≤ classCap ((s.reserve e n).1.cap) := by
  unfold SealableElementsVector.reserve ElementsVector.reserve SealableElementsVector.toElementsVector
  by_cases h : n ≤ classCap s.cap
  · rw [if_pos h]
    exact h
  · simp only [h, if_false]
    exact le_classCap_classFor n

/-- Helper: a push on a full vector grows to the smallest class fitting the
new length and increments the length. -/
theorem push_full (s : SealableElementsVector) (e : ElementArrays)
    (value : Option Nat) (d : Option ElementDescriptor) (h : s.len = classCap s.cap) :
    (s.push e value d).1.len = s.len + 1
    ∧ (s.push e value d).1.cap = classFor (s.len + 1) := by
  unfold SealableElementsVector.push ElementsVector.push ElementsVector.reserve
    SealableElementsVector.toElementsVector
  have hgt : ¬ (s.len + 1 ≤ classCap s.cap) := by omega
  simp [h, hgt]

/-- C6: reserve within the current capacity class is an idempotent no-op;
after `reserve new_len`, pushing up to `new_len` elements never changes the
storage index or the capacity class; a push on a full vector grows to a
capacity class at least the required size. -/
theorem elementsVector_growth_spec (s : SealableElementsVector) (e : ElementArrays) :
    (∀ new_len, new_len ≤ classCap s.cap → s.reserve e new_len = (s, e))
    ∧ (∀ new_len items, s.len + items.length ≤ new_len →
        ((s.reserve e new_len).1.pushMany (s.reserve e new_len).2 items).1.elements_index
            = (s.reserve e new_len).1.elements_index
        ∧ ((s.reserve e new_len).1.pushMany (s.reserve e new_len).2 items).1.cap
            = (s.reserve e new_len).1.cap)
    ∧ (∀ value d, s.len = classCap s.cap →
        (s.push e value d).1.len = s.len + 1
        ∧ s.len + 1 ≤ classCap (s.push e value d).1.cap) := by
  refine ⟨?_, ?_, ?_⟩
  · intro new_len h
    unfold SealableElementsVector.reserve ElementsVector.reserve
      SealableElementsVector.toElementsVector
    simp [h]
  · intro new_len items h
    have hlen := reserve_len s e new_len
    have hcap := reserve_cap_fits s e new_len
    have hfit : (s.reserve e new_len).1.len + items.length
        ≤ classCap (s.reserve e new_len).1.cap := by
      rw [hlen]
      omega
    obtain ⟨h1, h2, _⟩ := pushMany_no_realloc items (s.reserve e new_len).1
      (s.reserve e new_len).2 hfit
    exact ⟨h1, h2⟩
  · intro value d h
    obtain ⟨h1, h2⟩ := push_full s e value d h
    refine ⟨h1, ?_⟩
    rw [h2]
    exact le_classCap_classFor (s.len + 1)

/-- C6 witness: a concrete vector at capacity class 1 (capacity 2).
Reserving 2 is a no-op, two pushes after the reserve keep index and class
fixed, and a push on the full vector grows to a class fitting 3. -/
theorem elementsVector_growth_spec_witness :
    ((2 : Nat) ≤ classCap (SealableElementsVector.mk 0 1 0 true).cap
      ∧ (SealableElementsVector.mk 0 1 0 true).reserve
          (ElementArrays.mk [[(none, none), (none, none)]]) 2
        = (SealableElementsVector.mk 0 1 0 true,
            ElementArrays.mk [[(none, none), (none, none)]]))
    ∧ (((SealableElementsVector.mk 0 1 0 true).reserve
          (ElementArrays.mk [[(none, none), (none, none)]]) 2).1.pushMany
          ((SealableElementsVector.mk 0 1 0 true).reserve
            (ElementArrays.mk [[(none, none), (none, none)]]) 2).2
          [(some 4, none), (some 5, none)]).1.cap
        = ((SealableElementsVector.mk 0 1 0 true).reserve
            (ElementArrays.mk [[(none, none), (none, none)]]) 2).1.cap
    ∧ ((SealableElementsVector.mk 0 1 2 true).push
          (ElementArrays.mk [[(some 4, none), (some 5, none)]]) (some 6) none).1.len = 3
    ∧ (3 : Nat) ≤ classCap ((SealableElementsVector.mk 0 1 2 true).push
          (ElementArrays.mk [[(some 4, none), (some 5, none)]]) (some 6) none).1.cap := by
  refine ⟨⟨by decide, ?_⟩, ?_, ?_, ?_⟩
  · exact (elementsVector_growth_spec (SealableElementsVector.mk 0 1 0 true)
      (ElementArrays.mk [[(none, none), (none, none)]])).1 2 (by decide)
  · exact (((elementsVector_growth_spec (SealableElementsVector.mk 0 1 0 true)
      (ElementArrays.mk [[(none, none), (none, none)]])).2.1 2
      [(some 4, none), (some 5, none)] (by decide))).2
  · exact ((elementsVector_growth_spec (SealableElementsVector.mk 0 1 2 true)
      (ElementArrays.mk [[(some 4, none), (some 5, none)]])).2.2 (some 6) none
      (by decide)).1
  · exact ((elementsVector_growth_spec (SealableElementsVector.mk 0 1 2 true)
      (ElementArrays.mk [[(some 4, none), (some 5, none)]])).2.2 (some 6) none
      (by decide)).2

/-- C5 counterexample: a sealed vector (length not writable), pushing
mutates the length anyway.  The source `SealableElementsVector::push` and
`::reserve` never consult `len_writable`, so the push succeeds and
increments the length instead of failing. -/
theorem sealed_push_mutates_length :
    (SealableElementsVector.mk 0 1 0 false).writable = false
    ∧ (SealableElementsVector.mk 0 1 0 false).len = 0
    ∧ ((SealableElementsVector.mk 0 1 0 false).push
        (ElementArrays.mk [[(none, none), (none, none)]]) (some 7) none).1.len = 1 := by
  exact ⟨rfl, rfl, rfl⟩

/-- C5 amended: `push` and `reserve` do not consult the `len_writable`
flag; a sealed vector behaves exactly like its unsealed twin except that
the flag itself is carried through unchanged.  Sealing is only recorded for
callers via `writable()`. -/
theorem sealed_flag_no_effect_on_push_reserve (i c l : Nat) (e : ElementArrays)
    (value : Option Nat) (d : Option ElementDescriptor) (n : Nat) :
    ((SealableElementsVector.mk i c l false).push e value d).1
        = { ((SealableElementsVector.mk i c l true).push e value d).1 with
              len_writable := false }
    ∧ ((SealableElementsVector.mk i c l false).push e value d).2
        = ((SealableElementsVector.mk i c l true).push e value d).2
    ∧ ((SealableElementsVector.mk i c l false).reserve e n).1
        = { ((SealableElementsVector.mk i c l true).reserve e n).1 with
              len_writable := false }
    ∧ ((SealableElementsVector.mk i c l false).reserve e n).2
        = ((SealableElementsVector.mk i c l true).reserve e n).2 := by
  exact ⟨rfl, rfl, rfl, rfl⟩

/-- C10: the classification queries is_dense, is_simple and is_trivial
return identical results on two sealable vectors that agree on storage
index, capacity class and length and differ only in the `len_writable`
flag: the sealing flag has no influence on classification. -/
theorem classification_ignores_seal (i c l : Nat) (b₁ b₂ : Bool) (e : ElementArrays) :
    (SealableElementsVector.mk i c l b₁).is_dense e
        = (SealableElementsVector.mk i c l b₂).is_dense e
    ∧ (SealableElementsVector.mk i c l b₁).is_simple e
        = (SealableElementsVector.mk i c l b₂).is_simple e
    ∧ (SealableElementsVector.mk i c l b₁).is_trivial e
        = (SealableElementsVector.mk i c l b₂).is_trivial e := by
  exact ⟨rfl, rfl, rfl⟩

/-- Modelled from the spec: the mark engine loop is not under src/.  The
spec says: repeatedly pop an index from a work-list, mark its slot as
reached (an already-reached slot is skipped), invoke its trace capability
and push every referenced index.  The entity space is `Fin n`, `trace` is
the per-entity edge enumeration, `marked` the set of reached slots and
`queue` the pending work-list; the second component of the result counts
the trace invocations performed.  The recursion is well-founded by the
lexicographic measure (unreached count, queue length), which is the
termination argument the spec gives for cyclic graphs. -/
def markLoopGo (n : Nat) (trace : Fin n → List (Fin n)) (marked : Finset (Fin n))
    (queue : List (Fin n)) : Finset (Fin n) × Nat :=
  match queue with
  | [] => (marked, 0)
  | i :: rest =>
    if h : i ∈ marked then
      markLoopGo n trace marked rest
    else
      let r := markLoopGo n trace (insert i marked) (trace i ++ rest)
      (r.1, r.2 + 1)
termination_by (n - marked.card, queue.length)
decreasing_by
  · apply Prod.Lex.right
    simp
  · apply Prod.Lex.left
    have hcard : (insert i marked).card ≤ n := by
      have hle := Finset.card_le_univ (insert i marked)
      simpa [Finset.card_univ] using hle
    rw [Finset.card_insert_of_not_mem h] at hcard ⊢
    omega

/-- Helper: the number of trace invocations of the mark loop is bounded by
the number of not-yet-reached entities, by strong induction on that
number. -/
theorem markLoopGo_count_le (n : Nat) (trace : Fin n → List (Fin n)) :
    ∀ (k : Nat) (marked : Finset (Fin n)) (queue : List (Fin n)),
      n - marked.card ≤ k →
      (markLoopGo n trace marked queue).2 ≤ n - marked.card := by
  intro k
  induction k with
  | zero =>
    intro marked queue hk
    induction queue with
    | nil =>
      rw [markLoopGo]
      exact Nat.zero_le _
    | cons i rest ihq =>
      rw [markLoopGo]
      by_cases h : i ∈ marked
      · rw [dif_pos h]
        exact ihq
      · exfalso
        have hcard : marked.card ≤ n := by
          have hle := Finset.card_le_univ marked
          simpa [Finset.card_univ] using hle
        have hcn : marked.card = n := by omega
        have huniv : marked = Finset.univ :=
          Finset.eq_univ_of_card marked (by simpa [Finset.card_univ] using hcn)
        exact h (huniv ▸ Finset.mem_univ i)
  | succ k ih =>
    intro marked queue hk
    induction queue with
    | nil =>
      rw [markLoopGo]
      exact Nat.zero_le _
    | cons i rest ihq =>
      rw [markLoopGo]
      by_cases h : i ∈ marked
      · rw [dif_pos h]
        exact ihq
      · rw [dif_neg h]
        have hcard : (insert i marked).card ≤ n := by
          have hle := Finset.card_le_univ (insert i marked)
          simpa [Finset.card_univ] using hle
        have hins : (insert i marked).card = marked.card + 1 :=
          Finset.card_insert_of_not_mem h
        have hrec := ih (insert i marked) (trace i ++ rest) (by omega)
        simp only []
        omega

/-- C9: the mark loop terminates on every reference graph, cyclic ones
included (it is accepted by well-founded recursion on (unreached count,
queue length)); popping an already-reached index is skipped without any
trace work, and the total number of trace invocations is bounded by the
number of entities not yet reached, hence by the live entity count. -/
theorem markLoop_spec (n : Nat) (trace : Fin n → List (Fin n))
    (marked : Finset (Fin n)) (queue : List (Fin n)) :
    (markLoopGo n trace marked queue).2 ≤ n - marked.card
    ∧ ∀ i rest, i ∈ marked →
        markLoopGo n trace marked (i :: rest) = markLoopGo n trace marked rest := by
  refine ⟨markLoopGo_count_le n trace (n - marked.card) marked queue (Nat.le_refl _), ?_⟩
  intro i rest h
  rw [markLoopGo]
  rw [dif_pos h]

/-- C9 witness: a two-entity graph in which every entity points at both
entities (a cycle), entity 0 already reached: the loop performs at most one
trace invocation and skips the already-reached head of the queue. -/
theorem markLoop_spec_witness :
    ((0 : Fin 2) ∈ ({0} : Finset (Fin 2))
      ∧ (markLoopGo 2 (fun _ => [0, 1]) {0} [0]).2 ≤ 2 - ({0} : Finset (Fin 2)).card)
    ∧ markLoopGo 2 (fun _ => [0, 1]) {0} (0 :: [])
        = markLoopGo 2 (fun _ => [0, 1]) {0} [] := by
  refine ⟨⟨by decide, (markLoop_spec 2 (fun _ => [0, 1]) {0} [0]).1⟩, ?_⟩
  exact (markLoop_spec 2 (fun _ => [0, 1]) {0} []).2 0 [] (by decide)

end NovaHeap
